import Mathlib

/-
  Verification development for the data-access core of the
  nextjs-responsive-template repository.

  Shallow embedding of:
  - src/types/errors.ts          (error taxonomy: AppError and subclasses)
  - src/lib/error-handling.ts    (getUserFriendlyError, transformError)
  - the query key factory (queryKeys)
  - src/hooks/useCrudFactory.ts  (list query construction, query keys,
                                  update payload cleaning, invalidation)
  - the useSmartLoading hook (delayed loading indicator state machine)

  JavaScript objects are modelled as explicit inductive shapes, machine
  behaviour (timers, renders) as step functions on explicit state.
-/

namespace NRT

/-! ## Error taxonomy (src/types/errors.ts) -/

/-- `ErrorType` enum from src/types/errors.ts. -/
inductive ErrorType where
  | AUTH
  | PERMISSION
  | NETWORK
  | VALIDATION
  | FILE_UPLOAD
  | DATABASE
  | UNKNOWN
deriving DecidableEq

/-- `ErrorSeverity` enum from src/types/errors.ts. -/
inductive ErrorSeverity where
  | INFO
  | WARNING
  | ERROR
  | CRITICAL
deriving DecidableEq

/-- Shape of a plain JavaScript object error value as far as the error
layer inspects it: an optional string `message` field, presence flags for
the `status` and `__isAuthError` fields (the auth-shape markers), and
optional string `details` / `hint` / `code` fields (the Postgrest-shape
markers). -/
structure JSObj where
  message : Option String := none
  hasStatusField : Bool := false
  hasAuthMarker : Bool := false
  details : Option String := none
  hint : Option String := none
  code : Option String := none
deriving DecidableEq

mutual

/-- The `AppError` class of src/types/errors.ts: name, message, type,
severity, optional context object, optional original error.  The
`timestamp : Date` field is not modelled (wall-clock time). -/
inductive AppError where
  | mk (name : String) (message : String) (type : ErrorType)
       (severity : ErrorSeverity) (context : Option ErrCtx)
       (originalError : Option JSError)

/-- The context objects the error layer actually constructs:
a bare record holding the context string, a record holding the context
string together with the raw error, or the record holding the (possibly
absent) `fields` of a `ValidationError`. -/
inductive ErrCtx where
  | ctxOnly (context : Option String)
  | ctxWithError (context : Option String) (error : JSError)
  | fieldsCtx (fields : Option (List (String × String)))

/-- An arbitrary input value handed to the error layer (`unknown` in the
TypeScript source): `null`, a bare string, a plain `Error` instance
carrying only a message, an `AppError` instance, or a plain object. -/
inductive JSError where
  | jsNull
  | jsStr (s : String)
  | jsError (message : String)
  | jsAppError (a : AppError)
  | jsObj (o : JSObj)

end

/-- Projection: name of an `AppError`. -/
def AppError.name : AppError → String
  | .mk n _ _ _ _ _ => n

/-- Projection: message of an `AppError`. -/
def AppError.message : AppError → String
  | .mk _ m _ _ _ _ => m

/-- Projection: type (error kind) of an `AppError`. -/
def AppError.type : AppError → ErrorType
  | .mk _ _ t _ _ _ => t

/-- Projection: severity of an `AppError`. -/
def AppError.severity : AppError → ErrorSeverity
  | .mk _ _ _ s _ _ => s

/-- Projection: context of an `AppError`. -/
def AppError.context : AppError → Option ErrCtx
  | .mk _ _ _ _ c _ => c

/-- Projection: original error of an `AppError`. -/
def AppError.originalError : AppError → Option JSError
  | .mk _ _ _ _ _ o => o

/-! ## Error classification (src/lib/error-handling.ts) -/

/-- Whether `needle` occurs as a contiguous sublist of `hay`. -/
def listContains (hay needle : List Char) : Bool :=
  match hay with
  | [] => needle.isEmpty
  | _ :: t => needle.isPrefixOf hay || listContains t needle

/-- JavaScript `haystack.includes(needle)`: substring containment. -/
def strContains (hay needle : String) : Bool :=
  listContains hay.toList needle.toList

/-- JavaScript `a || b` on an optional string `a` (absent and the empty
string are both falsy) with a string fallback `b`. -/
def strOr (a : Option String) (b : String) : String :=
  match a with
  | some s => if s = "" then b else s
  | none => b

/-- The `errorMessageMap` table of src/lib/error-handling.ts, in source
order (JavaScript object iteration order is insertion order here). -/
def errorMessageMap : List (String × String) :=
  [ ("Invalid login credentials", "Invalid email or password. Please try again."),
    ("Email not confirmed", "Please verify your email before logging in."),
    ("User already registered", "An account with this email already exists."),
    ("new row violates row-level security policy", "You don't have permission to perform this action."),
    ("permission denied", "Access denied. You don't have the required permissions."),
    ("Payload too large", "File size exceeds the maximum limit of 10MB."),
    ("Invalid file type", "This file type is not allowed."),
    ("File size exceeds", "The file is too large. Please upload a smaller file."),
    ("File type", "This file type is not supported. Please check the allowed file types."),
    ("storage/unauthorized", "You don't have permission to upload files to this location."),
    ("storage/object-not-found", "The requested file could not be found."),
    ("storage/quota-exceeded", "Storage quota exceeded. Please contact support."),
    ("duplicate key value", "This item already exists."),
    ("foreign key violation", "Cannot delete this item as it's being used elsewhere."),
    ("not-null constraint", "Please fill in all required fields."),
    ("Failed to fetch", "Network error. Please check your connection."),
    ("NetworkError", "Unable to connect. Please check your internet connection."),
    ("Internal Server Error", "Something went wrong. Please try again later.") ]

/-- JavaScript falsiness of an error value (`!error`): `null` and the
empty string are falsy, every object and nonempty string is truthy. -/
def isFalsyError : JSError → Bool
  | .jsNull => true
  | .jsStr s => s = ""
  | _ => false

/-- `isAuthError` of src/types/errors.ts: a non-null object with
`status`, `message` and `__isAuthError` fields present. -/
def isAuthError : JSError → Bool
  | .jsObj o => o.hasStatusField && o.message.isSome && o.hasAuthMarker
  | _ => false

/-- `isPostgrestError` of src/types/errors.ts: a non-null object with a
`message` field and at least one of `details` / `hint` / `code`. -/
def isPostgrestError : JSError → Bool
  | .jsObj o => o.message.isSome && (o.details.isSome || o.hint.isSome || o.code.isSome)
  | _ => false

/-- `error instanceof Error`: true of plain `Error` instances and of
`AppError` instances (`AppError extends Error`). -/
def instOfError : JSError → Bool
  | .jsError _ => true
  | .jsAppError _ => true
  | _ => false

/-- Reading the `message` property of an error value, when present. -/
def errMessage : JSError → Option String
  | .jsError m => some m
  | .jsAppError a => some a.message
  | .jsObj o => o.message
  | _ => none

/-- `error.message?.includes(sub)` coerced to boolean. -/
def msgIncludes (e : JSError) (sub : String) : Bool :=
  match errMessage e with
  | some m => strContains m sub
  | none => false

/-- First entry of `errorMessageMap` whose key occurs (case insensitively)
inside `message`: the partial-match loop of `getUserFriendlyError`. -/
def partialMatch (message : String) : Option String :=
  (errorMessageMap.find? (fun kv => strContains message.toLower kv.1.toLower)).map (·.2)

/-- `getUserFriendlyError` of src/lib/error-handling.ts. -/
def getUserFriendlyError (error : JSError) : String :=
  if isFalsyError error then "An unexpected error occurred."
  else if isPostgrestError error then
    let message :=
      match error with
      | .jsObj o => strOr o.message (strOr o.details "")
      | _ => ""
    match List.lookup message errorMessageMap with
    | some v => v
    | none =>
      match partialMatch message with
      | some v => v
      | none => if message = "" then "Database error occurred." else message
  else if instOfError error then
    let message := (errMessage error).getD ""
    match List.lookup message errorMessageMap with
    | some v => v
    | none =>
      match partialMatch message with
      | some v => v
      | none => message
  else
    match error with
    | .jsStr s => (List.lookup s errorMessageMap).getD s
    | _ => "An unexpected error occurred."

/-- `transformError` of src/lib/error-handling.ts: normalize any input
value into one `AppError`, following the source's branch order
(AppError identity, auth shape, Postgrest shape with permission and
validation refinements, network message, file upload message, generic
`Error`, bare string, anything else). -/
def transformError (error : JSError) (context : Option String) : AppError :=
  match error with
  | .jsAppError a => a
  | _ =>
    if isAuthError error then
      .mk "AuthenticationError" (getUserFriendlyError error)
        .AUTH .ERROR none (some error)
    else if isPostgrestError error then
      let message := getUserFriendlyError error
      if msgIncludes error "row-level security" || msgIncludes error "permission denied" then
        .mk "PermissionError" message .PERMISSION .WARNING (some (.ctxOnly context)) none
      else if msgIncludes error "not-null constraint" || msgIncludes error "check constraint" then
        .mk "ValidationError" message .VALIDATION .WARNING (some (.fieldsCtx none)) none
      else
        .mk "DatabaseError" message .DATABASE .ERROR none (some error)
    else if instOfError error &&
        (msgIncludes error "Failed to fetch" || msgIncludes error "NetworkError" ||
         msgIncludes error "ERR_NETWORK") then
      .mk "NetworkError" (getUserFriendlyError error) .NETWORK .ERROR none (some error)
    else if instOfError error &&
        (msgIncludes error "storage/" || msgIncludes error "File size" ||
         msgIncludes error "File type") then
      .mk "FileUploadError" (getUserFriendlyError error)
        .FILE_UPLOAD .ERROR (some (.ctxOnly context)) none
    else if instOfError error then
      .mk "AppError" (getUserFriendlyError error)
        .UNKNOWN .ERROR (some (.ctxOnly context)) (some error)
    else
      match error with
      | .jsStr s => .mk "AppError" s .UNKNOWN .ERROR (some (.ctxOnly context)) none
      | _ =>
        .mk "AppError" "An unexpected error occurred"
          .UNKNOWN .ERROR (some (.ctxWithError context error)) none

/-! ## Query key factory (queryKeys) -/

/-- One element of a React Query key tuple as this code base builds them:
a string token or a filter object, modelled as its key-value pairs where a
`none` value stands for a null/undefined field. -/
inductive QK where
  | s (v : String)
  | obj (fields : List (String × Option String))
deriving DecidableEq

/-- JavaScript truthiness of a query key element (`if (filter)`,
`if (userType)`): the empty string is falsy, every object is truthy. -/
def qkTruthy : QK → Bool
  | .s v => v != ""
  | .obj _ => true

/-- `queryKeys.users.all` of the query key factory module. -/
def queryKeys.users.all : List QK := [.s "users"]

/-- `queryKeys.users.lists`. -/
def queryKeys.users.lists : List QK := queryKeys.users.all ++ [.s "list"]

/-- `queryKeys.users.list(filters?)`. -/
def queryKeys.users.list (filters : Option (List (String × Option String))) : List QK :=
  match filters with
  | some f => queryKeys.users.lists ++ [.obj f]
  | none => queryKeys.users.lists

/-- `queryKeys.users.details`. -/
def queryKeys.users.details : List QK := queryKeys.users.all ++ [.s "detail"]

/-- `queryKeys.users.detail(id)`. -/
def queryKeys.users.detail (id : String) : List QK := queryKeys.users.details ++ [.s id]

/-- `queryKeys.users.byType(type)`. -/
def queryKeys.users.byType (type : String) : List QK :=
  queryKeys.users.lists ++ [.obj [("type", some type)]]

/-- `queryKeys.locations.all`. -/
def queryKeys.locations.all : List QK := [.s "locations"]

/-- `queryKeys.locations.lists`. -/
def queryKeys.locations.lists : List QK := queryKeys.locations.all ++ [.s "list"]

/-- `queryKeys.locations.list(filters?)`. -/
def queryKeys.locations.list (filters : Option (List (String × Option String))) : List QK :=
  match filters with
  | some f => queryKeys.locations.lists ++ [.obj f]
  | none => queryKeys.locations.lists

/-- `queryKeys.locations.details`. -/
def queryKeys.locations.details : List QK := queryKeys.locations.all ++ [.s "detail"]

/-- `queryKeys.locations.detail(id)`. -/
def queryKeys.locations.detail (id : String) : List QK :=
  queryKeys.locations.details ++ [.s id]

/-- `queryKeys.organisations.all`. -/
def queryKeys.organisations.all : List QK := [.s "organisations"]

/-- `queryKeys.organisations.lists`. -/
def queryKeys.organisations.lists : List QK := queryKeys.organisations.all ++ [.s "list"]

/-- `queryKeys.organisations.list(filters?)`. -/
def queryKeys.organisations.list (filters : Option (List (String × Option String))) : List QK :=
  match filters with
  | some f => queryKeys.organisations.lists ++ [.obj f]
  | none => queryKeys.organisations.lists

/-- `queryKeys.organisations.details`. -/
def queryKeys.organisations.details : List QK :=
  queryKeys.organisations.all ++ [.s "detail"]

/-- `queryKeys.organisations.detail(id)`. -/
def queryKeys.organisations.detail (id : String) : List QK :=
  queryKeys.organisations.details ++ [.s id]

/-- `queryKeys.jobs.all`. -/
def queryKeys.jobs.all : List QK := [.s "jobs"]

/-- `queryKeys.jobs.lists`. -/
def queryKeys.jobs.lists : List QK := queryKeys.jobs.all ++ [.s "list"]

/-- `queryKeys.jobs.list(filter?, userType?)`: starts from `lists()` and
pushes `filter`, then `userType`, each only when truthy. -/
def queryKeys.jobs.list (filter : Option QK) (userType : Option String) : List QK :=
  let key := queryKeys.jobs.lists
  let key := match filter with
    | some f => if qkTruthy f then key ++ [f] else key
    | none => key
  match userType with
  | some u => if u != "" then key ++ [.s u] else key
  | none => key

/-- `queryKeys.jobs.details`. -/
def queryKeys.jobs.details : List QK := queryKeys.jobs.all ++ [.s "detail"]

/-- `queryKeys.jobs.detail(id)`. -/
def queryKeys.jobs.detail (id : String) : List QK := queryKeys.jobs.details ++ [.s id]

/-- `queryKeys.jobs.history(jobId, userType?)`. -/
def queryKeys.jobs.history (jobId : String) (userType : Option String) : List QK :=
  let key := [QK.s "job-history", QK.s jobId]
  match userType with
  | some u => if u != "" then key ++ [.s u] else key
  | none => key

/-- `queryKeys.files.all`. -/
def queryKeys.files.all : List QK := [.s "files"]

/-- `queryKeys.files.lists`. -/
def queryKeys.files.lists : List QK := queryKeys.files.all ++ [.s "list"]

/-- `queryKeys.files.list(filter?)`. -/
def queryKeys.files.list (filter : Option (List (String × Option String))) : List QK :=
  match filter with
  | some f => queryKeys.files.lists ++ [.obj f]
  | none => queryKeys.files.lists

/-- `queryKeys.files.details`. -/
def queryKeys.files.details : List QK := queryKeys.files.all ++ [.s "detail"]

/-- `queryKeys.files.detail(id)`. -/
def queryKeys.files.detail (id : String) : List QK := queryKeys.files.details ++ [.s id]

/-- `queryKeys.contractor.documents(userId?)`. -/
def queryKeys.contractor.documents (userId : Option String) : List QK :=
  match userId with
  | some u => if u != "" then [.s "contractor-documents", .s u] else [.s "contractor-documents"]
  | none => [.s "contractor-documents"]

/-- `queryKeys.contractor.profile(userId)`. -/
def queryKeys.contractor.profile (userId : String) : List QK :=
  [.s "contractor-profile", .s userId]

/-- `queryKeys.userInvitations.all`. -/
def queryKeys.userInvitations.all : List QK := [.s "user-invitations"]

/-- `queryKeys.userInvitations.lists`. -/
def queryKeys.userInvitations.lists : List QK := queryKeys.userInvitations.all ++ [.s "list"]

/-- `queryKeys.userInvitations.list(filters?)`: the user invitation entity
exposes only `all`, `lists` and `list`. -/
def queryKeys.userInvitations.list (filters : Option (List (String × Option String))) : List QK :=
  match filters with
  | some f => queryKeys.userInvitations.lists ++ [.obj f]
  | none => queryKeys.userInvitations.lists

/-- `queryKeys.notifications.all(userId?)`. -/
def queryKeys.notifications.all (userId : Option String) : List QK :=
  match userId with
  | some u => if u != "" then [.s "notifications", .s u] else [.s "notifications"]
  | none => [.s "notifications"]

/-- `queryKeys.notifications.unread(userId?)`. -/
def queryKeys.notifications.unread (userId : Option String) : List QK :=
  match userId with
  | some u => if u != "" then [.s "notifications-unread", .s u] else [.s "notifications-unread"]
  | none => [.s "notifications-unread"]

/-- The interface of one entity's key factory object, as the spec's claim
quantifies over it: a root key `all`, a filtered list key builder, and a
`detail` builder when the entity's factory defines one. -/
structure EntityKeyFactory where
  all : List QK
  list : Option (List (String × Option String)) → List QK
  detail : Option (String → List QK)

/-- The users entry of `queryKeys` seen through `EntityKeyFactory`. -/
def usersFactory : EntityKeyFactory :=
  ⟨queryKeys.users.all, queryKeys.users.list, some queryKeys.users.detail⟩

/-- The locations entry of `queryKeys`. -/
def locationsFactory : EntityKeyFactory :=
  ⟨queryKeys.locations.all, queryKeys.locations.list, some queryKeys.locations.detail⟩

/-- The organisations entry of `queryKeys`. -/
def organisationsFactory : EntityKeyFactory :=
  ⟨queryKeys.organisations.all, queryKeys.organisations.list, some queryKeys.organisations.detail⟩

/-- The jobs entry of `queryKeys`; its list builder takes an optional
filter object (and an optional user type, absent here). -/
def jobsFactory : EntityKeyFactory :=
  ⟨queryKeys.jobs.all, fun f => queryKeys.jobs.list (f.map QK.obj) none,
   some queryKeys.jobs.detail⟩

/-- The files entry of `queryKeys`. -/
def filesFactory : EntityKeyFactory :=
  ⟨queryKeys.files.all, queryKeys.files.list, some queryKeys.files.detail⟩

/-- The user invitation entry of `queryKeys`: it has no `detail` builder. -/
def userInvitationsFactory : EntityKeyFactory :=
  ⟨queryKeys.userInvitations.all, queryKeys.userInvitations.list, none⟩

/-- The six entity key factories the claim ranges over. -/
def entityFactories : List EntityKeyFactory :=
  [usersFactory, locationsFactory, organisationsFactory, jobsFactory,
   filesFactory, userInvitationsFactory]

/-- `l` is a strict prefix of `k`. -/
def strictPrefix (l k : List QK) : Prop := l <+: k ∧ l ≠ k

/-- What claim C2 asserts of one entity key factory: `list(f)` and
`detail(id)` always extend `all()` strictly, the latter presupposing that
the factory has a `detail` builder at all. -/
def keyFactoryClaim (fac : EntityKeyFactory) : Prop :=
  (∀ f, strictPrefix fac.all (fac.list f)) ∧
  (∃ d, fac.detail = some d ∧ ∀ id, strictPrefix fac.all (d id))

/-! ## CRUD hook factory (src/hooks/useCrudFactory.ts) -/

/-- The `queryKey` option of `createCrudHook`: a plain string or a key
factory function (resolved once, so modelled by its value). -/
inductive QueryKeySpec where
  | str (s : String)
  | fn (k : List QK)
deriving DecidableEq

/-- `getBaseKey` of `useCrud`: a function is called, a string is wrapped
in a singleton array. -/
def getBaseKey : QueryKeySpec → List QK
  | .str s => [.s s]
  | .fn k => k

/-- `fullQueryKey` of `useCrud`: the base key, extended by the filters
object exactly when filters were passed. -/
def fullQueryKey (baseKey : List QK) (filters : Option (List (String × Option String))) : List QK :=
  match filters with
  | some f => baseKey ++ [.obj f]
  | none => baseKey

/-- The `orderBy` list option: a column plus an optional `ascending`
flag defaulting to true. -/
structure OrderBySpec where
  column : String
  ascending : Option Bool
deriving DecidableEq

/-- The `ListOptions` argument of a CRUD list hook. -/
structure ListOptions where
  filters : Option (List (String × Option String)) := none
  orderBy : Option OrderBySpec := none
  limit : Option Nat := none
  offset : Option Nat := none
deriving DecidableEq

/-- Key conversion of the case-conversion library on a conventional
camelCase identifier (as `decamelizeKeys` applies to each key): every
uppercase letter becomes an underscore plus its lowercase form. -/
def decamelize (s : String) : String :=
  String.mk (s.toList.flatMap (fun c => if c.isUpper then ['_', c.toLower] else [c]))

/-- JavaScript `limit || 10`: the numeric option when it is truthy
(present and nonzero), else 10. -/
def limitOrTen : Option Nat → Nat
  | some n => if n = 0 then 10 else n
  | none => 10

/-- The backend query `queryFn` assembles before awaiting it: table,
select clause, the applied equality filters, ordering, limit and range. -/
structure SupaQuery where
  table : String
  select : String
  eqFilters : List (String × String)
  order : Option (String × Bool)
  limitVal : Option Nat
  rangeVal : Option (Nat × Nat)
deriving DecidableEq

/-- The `.eq` calls `queryFn` makes: one per filter entry whose value is
neither undefined nor null, keyed by the decamelized column name. -/
def applyFilters (filters : Option (List (String × Option String))) :
    List (String × String) :=
  match filters with
  | some fs => fs.foldl (fun acc kv =>
      match kv.2 with
      | some v => acc ++ [(decamelize kv.1, v)]
      | none => acc) []
  | none => []

/-- The query built by `queryFn` of `useCrud` for one invocation:
filters as equality predicates, decamelized order column with `ascending`
defaulting to true, `.limit` only for a truthy limit, and `.range(offset,
offset + (limit || 10) - 1)` only for a truthy offset. -/
def queryFnQuery (tableName select : String) (listOptions : Option ListOptions) : SupaQuery :=
  { table := tableName
    select := select
    eqFilters := applyFilters (listOptions.bind (·.filters))
    order := (listOptions.bind (·.orderBy)).map
      (fun ob => (decamelize ob.column, ob.ascending.getD true))
    limitVal :=
      match listOptions.bind (·.limit) with
      | some n => if n = 0 then none else some n
      | none => none
    rangeVal :=
      match listOptions.bind (·.offset) with
      | some off =>
        if off = 0 then none
        else some (off, off + limitOrTen (listOptions.bind (·.limit)) - 1)
      | none => none }

/-- The cache key `useQuery` is given by the list hook: `fullQueryKey`
over the resolved base key and the filters of the list options. -/
def listHookQueryKey (spec : QueryKeySpec) (listOptions : Option ListOptions) : List QK :=
  fullQueryKey (getBaseKey spec) (listOptions.bind (·.filters))

/-- The cache key `createSingleItemHook` builds: base key plus `"detail"`
plus the id when the configured key is a factory function, else the plain
string key plus the id. -/
def singleItemQueryKey (spec : QueryKeySpec) (id : String) : List QK :=
  match spec with
  | .fn k => k ++ [.s "detail", .s id]
  | .str s => [.s s, .s id]

/-- The three mutations `createCrudHook` installs. -/
inductive MutationKind where
  | create
  | update
  | delete
deriving DecidableEq

/-- The `invalidateQueries` callback of `useCrud`: it always invalidates
at the freshly computed base key. -/
def invalidateQueriesKey (spec : QueryKeySpec) : List QK := getBaseKey spec

/-- The key each mutation's `onSuccess` handler passes to the query
client: all three mutations share the `invalidateQueries` callback. -/
def mutationOnSuccessKey (spec : QueryKeySpec) : MutationKind → List QK
  | .create => invalidateQueriesKey spec
  | .update => invalidateQueriesKey spec
  | .delete => invalidateQueriesKey spec

/-- One cached query: its key and whether it has been marked stale. -/
structure CacheEntry where
  key : List QK
  stale : Bool
deriving DecidableEq

/-- Modelled from the library contract relied upon here: React Query's
`queryClient.invalidateQueries({ queryKey })` marks stale every cached
query whose key has the given key as a prefix (partial matching). -/
def invalidateCache (key : List QK) (cache : List CacheEntry) : List CacheEntry :=
  cache.map (fun e => if key.isPrefixOf e.key then { e with stale := true } else e)

/-- The fixed `relationKeys` blocklist of the update mutation. -/
def relationKeys : List String :=
  ["managers", "organisation", "organization", "owner", "contractor", "location",
   "createdByUser", "updatedByUser", "deletedByUser", "jobHistories", "jobFiles"]

/-- A value of an update payload field, as far as the cleaning step
inspects it: a primitive, an array, or a nested object. -/
inductive UpdateValue where
  | prim (s : String)
  | arr (elems : List String)
  | objV (fields : List (String × String))
deriving DecidableEq

/-- `Array.isArray(value)`. -/
def UpdateValue.isArr : UpdateValue → Bool
  | .arr _ => true
  | _ => false

/-- First reduce of the update mutation: drop every key on the
`relationKeys` blocklist, keeping object insertion order. -/
def cleanedUpdates (updates : List (String × UpdateValue)) : List (String × UpdateValue) :=
  updates.foldl (fun acc kv => if relationKeys.contains kv.1 then acc else acc ++ [kv]) []

/-- Second reduce of the update mutation: additionally drop every key
whose value is an array.  This is the object handed (after key
decamelization) to the backend `.update` call. -/
def finalUpdates (updates : List (String × UpdateValue)) : List (String × UpdateValue) :=
  (cleanedUpdates updates).foldl (fun acc kv => if kv.2.isArr then acc else acc ++ [kv]) []

/-! ## Smart loading hook (useSmartLoading)

The hook is state plus two effects.  The embedding steps it over discrete
one-millisecond ticks: at each tick the inputs for that instant arrive,
React re-renders and settles state updates (`hasLoadedOnce` first, since
its effect feeds the second effect's dependencies), the loading effect
re-runs exactly when its dependency pair `(isInitialLoad,
isBackgroundRefetch)` changed (clearing any pending timeout, then either
scheduling `setShouldShowLoading(true)` after `loadingDelay` or hiding
immediately), and finally one millisecond elapses, counting a pending
timeout down and firing it when it reaches zero. -/

/-- The options record of `useSmartLoading`, with its defaults. -/
structure SmartLoadingOptions where
  isDataQuery : Bool := true
  loadingDelay : Nat := 200
  showBackgroundRefetch : Bool := false
deriving DecidableEq

/-- The three boolean inputs of `useSmartLoading` at one instant. -/
structure SmartInputs where
  isLoading : Bool
  isFetching : Bool
  hasData : Bool
deriving DecidableEq

/-- The hook's retained state between renders:  the two `useState` cells,
the pending timeout (milliseconds until it fires), and the dependency
pair the loading effect last ran with. -/
structure SmartState where
  shouldShowLoading : Bool
  hasLoadedOnce : Bool
  timer : Option Nat
  prevDeps : Option (Bool × Bool)
deriving DecidableEq

/-- Mount state of the hook. -/
def initSmartState : SmartState := ⟨false, false, none, none⟩

/-- The derived pair `(isInitialLoad, isBackgroundRefetch)` computed from
the inputs and the settled `hasLoadedOnce`. -/
def condStep (opts : SmartLoadingOptions) (hasLoadedOnce : Bool) (inp : SmartInputs) :
    Bool × Bool :=
  (inp.isLoading && !hasLoadedOnce && opts.isDataQuery,
   inp.isFetching && inp.hasData && hasLoadedOnce)

/-- `shouldShow` of the loading effect: the condition that must hold for
the delayed spinner, from the dependency pair. -/
def depsCond (opts : SmartLoadingOptions) (deps : Bool × Bool) : Bool :=
  deps.1 || (opts.showBackgroundRefetch && deps.2)

/-- The settled `shouldShow` condition of the tick that feeds `inp` to the
hook in state `st`. -/
def tickCond (opts : SmartLoadingOptions) (st : SmartState) (inp : SmartInputs) : Bool :=
  depsCond opts (condStep opts (st.hasLoadedOnce || inp.hasData) inp)

/-- The loading effect: skipped when the dependency pair is unchanged;
otherwise it clears the pending timeout and either schedules the spinner
after `loadingDelay` or hides it immediately.  Returns (shouldShowLoading,
pending timeout). -/
def tickEffect (opts : SmartLoadingOptions) (st : SmartState) (deps : Bool × Bool) :
    Bool × Option Nat :=
  if st.prevDeps = some deps then (st.shouldShowLoading, st.timer)
  else if depsCond opts deps then (st.shouldShowLoading, some opts.loadingDelay)
  else (false, none)

/-- One millisecond elapsing: a pending timeout counts down and fires
(setting `shouldShowLoading` true) when it reaches zero. -/
def tickTimer (hlo : Bool) (deps : Bool × Bool) : Bool × Option Nat → SmartState
  | (ssl, some n) =>
    if n ≤ 1 then ⟨true, hlo, none, some deps⟩ else ⟨ssl, hlo, some (n - 1), some deps⟩
  | (ssl, none) => ⟨ssl, hlo, none, some deps⟩

/-- One tick of the hook: settle `hasLoadedOnce`, recompute the
dependency pair, run (or skip) the loading effect, let one millisecond
pass. -/
def smartTick (opts : SmartLoadingOptions) (st : SmartState) (inp : SmartInputs) : SmartState :=
  let hlo := st.hasLoadedOnce || inp.hasData
  let deps := condStep opts hlo inp
  tickTimer hlo deps (tickEffect opts st deps)

/-- Running the hook over a whole input trace from a given state. -/
def runSmart (opts : SmartLoadingOptions) (st : SmartState) (tr : List SmartInputs) : SmartState :=
  tr.foldl (smartTick opts) st

/-- The settled `shouldShow` condition of each tick of a trace, threading
`hasLoadedOnce` through. -/
def condTrace (opts : SmartLoadingOptions) (hlo : Bool) : List SmartInputs → List Bool
  | [] => []
  | inp :: rest =>
    let hlo2 := hlo || inp.hasData
    depsCond opts (condStep opts hlo2 inp) :: condTrace opts hlo2 rest

/-- The condition held during the last `d` ticks of the trace (and the
trace is at least `d` ticks long). -/
def condHeldFor (d : Nat) (conds : List Bool) : Prop :=
  d ≤ conds.length ∧ ∀ b ∈ conds.reverse.take d, b = true

/-- Invariant tying the hook's state after some ticks to the settled
per-tick spinner conditions `past` of those ticks: a fresh state has seen
no tick; a pending timeout of `n` remaining milliseconds was scheduled
`loadingDelay - n` ticks ago and the condition has held ever since; a
showing spinner means the condition has held for the last `loadingDelay`
ticks and still holds; and the dependency pair the effect last ran with
determines the last settled condition. -/
def SmartInv (opts : SmartLoadingOptions) (past : List Bool) (st : SmartState) : Prop :=
  (st.prevDeps = none → st.timer = none ∧ st.shouldShowLoading = false ∧ past = []) ∧
  (∀ n, st.timer = some n → 1 ≤ n ∧ n + 1 ≤ opts.loadingDelay ∧
     condHeldFor (opts.loadingDelay - n) past) ∧
  (st.shouldShowLoading = true →
     past.getLast? = some true ∧ condHeldFor opts.loadingDelay past) ∧
  (∀ dp, st.prevDeps = some dp → past.getLast? = some (depsCond opts dp))

/-! ## Concrete example inputs -/

/-- An object that is Postgrest-shaped (message plus details) and at the
same time auth-shaped (status and auth marker fields present). -/
def pgAuthOverlap : JSObj :=
  { message := some "boom", hasStatusField := true, hasAuthMarker := true,
    details := some "d" }

/-- A Postgrest-shaped object whose message names a not-null constraint. -/
def pgNotNull : JSObj :=
  { message := some "violates not-null constraint", code := some "23502" }

/-- A Postgrest-shaped (database) object. -/
def pgPlain : JSObj := { message := some "oops", code := some "42" }

/-- An auth-shaped object. -/
def authShaped : JSObj :=
  { message := some "nope", hasStatusField := true, hasAuthMarker := true }

/-- An already-normalized error with a severity the error constructors of
the code base never pair with its kind (Permission with Critical),
constructible through the public `AppError` constructor. -/
def oddPermissionError : AppError :=
  .mk "AppError" "x" .PERMISSION .CRITICAL none none

/-- Whether the input already is an `AppError` instance
(`error instanceof AppError`). -/
def isAppErrorValue : JSError → Bool
  | .jsAppError _ => true
  | _ => false

/-! ## Theorems -/

/-- C3: `transformError` is total: every input value — null, a bare
string, a plain `Error`, a Postgrest-shaped object and an auth-shaped
object included — yields exactly one `AppError` value; the embedding is a
total function, and each of the listed shapes evaluates to a definite
normalized error. -/
theorem C3_transformError_total :
    (∀ (e : JSError) (c : Option String), ∃ a : AppError, transformError e c = a) ∧
    (transformError .jsNull none).type = ErrorType.UNKNOWN ∧
    (transformError (.jsStr "boom") none).type = ErrorType.UNKNOWN ∧
    (transformError (.jsError "boom") none).type = ErrorType.UNKNOWN ∧
    (transformError (.jsObj pgPlain) none).type = ErrorType.DATABASE ∧
    (transformError (.jsObj authShaped) none).type = ErrorType.AUTH :=
  ⟨fun e c => ⟨transformError e c, rfl⟩, rfl, rfl, rfl, rfl, rfl⟩

/-- C9: `transformError` is idempotent: an input that already is an
`AppError` comes back unchanged, so transforming a transformed error (any
contexts) equals the single transform. -/
theorem C9_transformError_idempotent :
    (∀ (a : AppError) (c : Option String), transformError (.jsAppError a) c = a) ∧
    (∀ (e : JSError) (c c2 : Option String),
      transformError (.jsAppError (transformError e c)) c2 = transformError e c) :=
  ⟨fun _ _ => rfl, fun _ _ _ => rfl⟩

/-- C4 counterexample: an input that is Postgrest-shaped but also
auth-shaped takes the auth branch first, so its kind is Auth, not the
Database kind the claim requires for a message with none of the special
phrases. -/
theorem C4_counterexample :
    isPostgrestError (.jsObj pgAuthOverlap) = true ∧
    msgIncludes (.jsObj pgAuthOverlap) "row-level security" = false ∧
    msgIncludes (.jsObj pgAuthOverlap) "permission denied" = false ∧
    msgIncludes (.jsObj pgAuthOverlap) "not-null constraint" = false ∧
    msgIncludes (.jsObj pgAuthOverlap) "check constraint" = false ∧
    (transformError (.jsObj pgAuthOverlap) none).type = ErrorType.AUTH ∧
    (transformError (.jsObj pgAuthOverlap) none).type ≠ ErrorType.DATABASE := by
  refine ⟨rfl, ?_, ?_, ?_, ?_, rfl, ?_⟩ <;> decide

/-- C4 (amended): for every Postgrest-shaped input that is not also
auth-shaped, `transformError` yields Permission when the message contains
a row-level-security or permission-denied phrase, else Validation when it
contains a not-null-constraint or check-constraint phrase, else
Database. -/
theorem C4_postgrest_classification (o : JSObj) (c : Option String)
    (hp : isPostgrestError (.jsObj o) = true)
    (ha : isAuthError (.jsObj o) = false) :
    (transformError (.jsObj o) c).type =
      (if msgIncludes (.jsObj o) "row-level security"
          || msgIncludes (.jsObj o) "permission denied" then ErrorType.PERMISSION
       else if msgIncludes (.jsObj o) "not-null constraint"
          || msgIncludes (.jsObj o) "check constraint" then ErrorType.VALIDATION
       else ErrorType.DATABASE) := by
  simp only [transformError, ha, hp]
  split_ifs <;> simp_all [AppError.type]

/-- C4 witness: the amended classification applied to a concrete
Postgrest-shaped, non-auth-shaped input with a not-null message. -/
theorem C4_postgrest_classification_witness :
    isPostgrestError (.jsObj pgNotNull) = true ∧
    isAuthError (.jsObj pgNotNull) = false ∧
    (transformError (.jsObj pgNotNull) none).type = ErrorType.VALIDATION :=
  ⟨rfl, rfl, (C4_postgrest_classification pgNotNull none rfl rfl).trans (by decide)⟩

/-- C10 counterexample: `transformError` returns an already-normalized
error unchanged, so an `AppError` built with kind Permission and severity
Critical comes back with severity Critical, not Warning. -/
theorem C10_counterexample :
    (transformError (.jsAppError oddPermissionError) none).type = ErrorType.PERMISSION ∧
    (transformError (.jsAppError oddPermissionError) none).severity = ErrorSeverity.CRITICAL ∧
    ErrorSeverity.CRITICAL ≠ ErrorSeverity.WARNING :=
  ⟨rfl, rfl, by decide⟩

/-- C10 (amended): for every input that is not already an `AppError`
instance, the normalized error has severity Warning exactly when its kind
is Permission or Validation, and its severity is always Warning or Error
(never Info or Critical). -/
theorem C10_severity_matches_kind (e : JSError) (c : Option String)
    (h : isAppErrorValue e = false) :
    ((transformError e c).severity = ErrorSeverity.WARNING ↔
      ((transformError e c).type = ErrorType.PERMISSION ∨
       (transformError e c).type = ErrorType.VALIDATION)) ∧
    ((transformError e c).severity = ErrorSeverity.WARNING ∨
     (transformError e c).severity = ErrorSeverity.ERROR) := by
  cases e with
  | jsAppError a => exact absurd h (by simp [isAppErrorValue])
  | jsNull => simp only [transformError]; split_ifs <;> simp [AppError.severity, AppError.type]
  | jsStr s => simp only [transformError]; split_ifs <;> simp [AppError.severity, AppError.type]
  | jsError m => simp only [transformError]; split_ifs <;> simp [AppError.severity, AppError.type]
  | jsObj o => simp only [transformError]; split_ifs <;> simp [AppError.severity, AppError.type]

/-- C10 witness: the amended severity property at the concrete input
null. -/
theorem C10_severity_matches_kind_witness :
    isAppErrorValue JSError.jsNull = false ∧
    ((transformError .jsNull none).severity = ErrorSeverity.WARNING ∨
     (transformError .jsNull none).severity = ErrorSeverity.ERROR) :=
  ⟨rfl, (C10_severity_matches_kind .jsNull none rfl).2⟩

/-- Folding a skip-or-append step over a list is filtering by the kept
elements, appended to the accumulator. -/
theorem foldl_skip_eq_filter {α : Type} (p : α → Bool) (l acc : List α) :
    l.foldl (fun acc x => if p x then acc else acc ++ [x]) acc
      = acc ++ l.filter (fun x => !p x) := by
  induction l generalizing acc with
  | nil => simp
  | cons h t ih =>
    by_cases hp : p h <;> simp [hp, ih, List.filter_cons]

/-- A list is a strict prefix of itself extended by at least one
element. -/
theorem strictPrefix_cons_append (l : List QK) (x : QK) (t : List QK) :
    strictPrefix l (l ++ x :: t) := by
  refine ⟨List.prefix_append l (x :: t), fun h => ?_⟩
  have hl := congrArg List.length h
  simp only [List.length_append, List.length_cons] at hl
  omega

/-- C1 counterexample: in the jobs scenario the list hook caches under
the root key plus the filters object; no "list" marker is inserted, so
the key the claim states is not the cache key. -/
theorem C1_counterexample :
    listHookQueryKey (.fn [.s "jobs"]) (some { filters := some [("status", some "AVAILABLE")] })
      = [QK.s "jobs", QK.obj [("status", some "AVAILABLE")]] ∧
    listHookQueryKey (.fn [.s "jobs"]) (some { filters := some [("status", some "AVAILABLE")] })
      ≠ [QK.s "jobs", QK.s "list", QK.obj [("status", some "AVAILABLE")]] :=
  ⟨rfl, by decide⟩

/-- C1 (amended): the jobs scenario issues a backend call on table jobs
filtered by the equality predicate status = AVAILABLE, and stores the
result under the cache key ["jobs", {status:"AVAILABLE"}] — the root key
followed directly by the filters object. -/
theorem C1_jobs_list_scenario :
    (queryFnQuery "jobs" "*" (some { filters := some [("status", some "AVAILABLE")] })).table
      = "jobs" ∧
    (queryFnQuery "jobs" "*" (some { filters := some [("status", some "AVAILABLE")] })).eqFilters
      = [("status", "AVAILABLE")] ∧
    listHookQueryKey (.fn [.s "jobs"]) (some { filters := some [("status", some "AVAILABLE")] })
      = [QK.s "jobs", QK.obj [("status", some "AVAILABLE")]] :=
  ⟨rfl, rfl, rfl⟩

/-- C5 counterexample: options with offset 0 and limit 5 include an
offset, yet the built query carries no row range at all (the source
guards the range with JavaScript truthiness), while the claim demands
the range (0, 4). -/
theorem C5_counterexample :
    (queryFnQuery "jobs" "*" (some { offset := some 0, limit := some 5 })).rangeVal = none ∧
    (queryFnQuery "jobs" "*" (some { offset := some 0, limit := some 5 })).rangeVal
      ≠ some (0, 0 + 5 - 1) :=
  ⟨rfl, by decide⟩

/-- C5 (amended): for every list call whose options carry a nonzero
offset, the backend query gets the row range
[offset, offset + limit - 1], where limit falls back to 10 when the limit
option is absent or zero. -/
theorem C5_offset_applies_range (t sel : String) (lo : ListOptions) (off : Nat)
    (hoff : lo.offset = some off) (hnz : off ≠ 0) :
    (queryFnQuery t sel (some lo)).rangeVal = some (off, off + limitOrTen lo.limit - 1) := by
  simp [queryFnQuery, Option.bind, hoff, hnz]

/-- C5 witness: the amended range rule at offset 20 with limit 10. -/
theorem C5_offset_applies_range_witness :
    ({ offset := some 20, limit := some 10 } : ListOptions).offset = some 20 ∧
    (20 : Nat) ≠ 0 ∧
    (queryFnQuery "test_entities" "*" (some { offset := some 20, limit := some 10 })).rangeVal
      = some (20, 29) :=
  ⟨rfl, by decide,
   (C5_offset_applies_range "test_entities" "*"
      { offset := some 20, limit := some 10 } 20 rfl (by decide)).trans (by decide)⟩

/-- C6: the object the update mutation sends contains no blocklisted
relation key and no array-valued field, and keeps every other key-value
pair of the payload (the id having been split off by destructuring). -/
theorem C6_update_strips_relations (updates : List (String × UpdateValue)) :
    (∀ kv ∈ finalUpdates updates,
        relationKeys.contains kv.1 = false ∧ kv.2.isArr = false) ∧
    (∀ kv ∈ updates, relationKeys.contains kv.1 = false → kv.2.isArr = false →
        kv ∈ finalUpdates updates) := by
  have h1 : cleanedUpdates updates
      = updates.filter (fun kv => !(relationKeys.contains kv.1)) := by
    unfold cleanedUpdates
    rw [foldl_skip_eq_filter, List.nil_append]
  have h2 : finalUpdates updates
      = (cleanedUpdates updates).filter (fun kv => !(kv.2.isArr)) := by
    unfold finalUpdates
    rw [foldl_skip_eq_filter, List.nil_append]
  constructor
  · intro kv hkv
    rw [h2, List.mem_filter, h1, List.mem_filter] at hkv
    obtain ⟨⟨-, hrel⟩, harr⟩ := hkv
    exact ⟨by simpa using hrel, by simpa using harr⟩
  · intro kv hkv hrel harr
    rw [h2, List.mem_filter, h1, List.mem_filter]
    exact ⟨⟨hkv, by simpa using hrel⟩, by simpa using harr⟩

/-- C6 witness: cleaning a concrete payload keeps the scalar columns and
drops the blocklisted and array-valued fields. -/
theorem C6_update_strips_relations_witness :
    ("title", UpdateValue.prim "x") ∈
      finalUpdates [("title", .prim "x"), ("managers", .prim "m"),
        ("jobFiles", .arr []), ("tags", .arr ["a"]), ("locationId", .prim "l")] ∧
    finalUpdates [("title", .prim "x"), ("managers", .prim "m"),
        ("jobFiles", .arr []), ("tags", .arr ["a"]), ("locationId", .prim "l")]
      = [("title", .prim "x"), ("locationId", .prim "l")] :=
  ⟨(C6_update_strips_relations _).2 ("title", UpdateValue.prim "x")
      (by decide) (by decide) (by decide),
   by decide⟩

/-- C7: create, update and delete mutations all invalidate at the
configured base key (the entity root, `all()`); every list cache key and
every detail cache key extends that root, so prefix invalidation marks
each such cached query stale. -/
theorem C7_mutations_invalidate_root (spec : QueryKeySpec) (k : MutationKind) :
    mutationOnSuccessKey spec k = getBaseKey spec ∧
    (∀ lo, (getBaseKey spec).isPrefixOf (listHookQueryKey spec lo) = true) ∧
    (∀ id, (getBaseKey spec).isPrefixOf (singleItemQueryKey spec id) = true) ∧
    (∀ (cache : List CacheEntry) (e : CacheEntry), e ∈ cache →
      (getBaseKey spec).isPrefixOf e.key = true →
      (⟨e.key, true⟩ : CacheEntry) ∈ invalidateCache (mutationOnSuccessKey spec k) cache) := by
  have hkey : mutationOnSuccessKey spec k = getBaseKey spec := by
    cases k <;> rfl
  refine ⟨hkey, ?_, ?_, ?_⟩
  · intro lo
    rw [List.isPrefixOf_iff_prefix]
    unfold listHookQueryKey fullQueryKey
    cases lo.bind (·.filters) <;> simp
  · intro id
    rw [List.isPrefixOf_iff_prefix]
    cases spec <;> simp [singleItemQueryKey, getBaseKey]
  · intro cache e he hp
    rw [hkey]
    unfold invalidateCache
    refine List.mem_map.mpr ⟨e, he, ?_⟩
    rw [hp]
    rfl

/-- C7 witness: after an update mutation configured with root key
["jobs"], a cached detail query for job 1 is stale. -/
theorem C7_mutations_invalidate_root_witness :
    (⟨[QK.s "jobs", QK.s "detail", QK.s "1"], true⟩ : CacheEntry) ∈
      invalidateCache (mutationOnSuccessKey (.fn [QK.s "jobs"]) .update)
        [⟨[QK.s "jobs", QK.s "detail", QK.s "1"], false⟩] :=
  (C7_mutations_invalidate_root (.fn [QK.s "jobs"]) .update).2.2.2
    [⟨[QK.s "jobs", QK.s "detail", QK.s "1"], false⟩]
    ⟨[QK.s "jobs", QK.s "detail", QK.s "1"], false⟩
    (by simp) (by decide)

/-- C2 counterexample: the user invitation key factory exposes no
`detail` builder at all, so the claim — which demands of each of the six
factories a `detail(id)` strictly extending `all()` — fails on it. -/
theorem C2_counterexample :
    ¬ (∀ fac ∈ entityFactories, keyFactoryClaim fac) := by
  intro h
  obtain ⟨-, d, hd, -⟩ := h userInvitationsFactory (by simp [entityFactories])
  simp [userInvitationsFactory] at hd

/-- C2 (amended): for all six entity factories, every `list(f)` key has
`all()` as a strict prefix; for the five factories that define a `detail`
builder (users, locations, organisations, jobs, files — user invitations
has none), every `detail(id)` key has `all()` as a strict prefix; and the
jobs list builder keeps this for its full signature. -/
theorem C2_keys_extend_root :
    (∀ fac ∈ entityFactories, ∀ f, strictPrefix fac.all (fac.list f)) ∧
    (∀ fac ∈ [usersFactory, locationsFactory, organisationsFactory, jobsFactory, filesFactory],
      ∃ d, fac.detail = some d ∧ ∀ id, strictPrefix fac.all (d id)) ∧
    userInvitationsFactory.detail = none ∧
    (∀ fl ut, strictPrefix queryKeys.jobs.all (queryKeys.jobs.list fl ut)) := by
  refine ⟨?_, ?_, rfl, ?_⟩
  · intro fac hfac f
    fin_cases hfac <;> cases f <;> exact strictPrefix_cons_append _ _ _
  · intro fac hfac
    fin_cases hfac <;> exact ⟨_, rfl, fun id => strictPrefix_cons_append _ _ _⟩
  · intro fl ut
    rcases fl with _ | f <;> rcases ut with _ | u <;>
      first
        | exact strictPrefix_cons_append _ _ _
        | (dsimp only [queryKeys.jobs.list]; split_ifs <;> exact strictPrefix_cons_append _ _ _)

/-- A trace has one settled condition per tick. -/
theorem condTrace_length (opts : SmartLoadingOptions) (hlo : Bool) (tr : List SmartInputs) :
    (condTrace opts hlo tr).length = tr.length := by
  induction tr generalizing hlo with
  | nil => rfl
  | cons i t ih => simp [condTrace, ih]

/-- The condition trivially held during the last zero ticks. -/
theorem condHeldFor_zero (l : List Bool) : condHeldFor 0 l :=
  ⟨Nat.zero_le _, by simp⟩

/-- Extending a trace by a tick where the condition holds extends the
held window by one. -/
theorem condHeldFor_append (d : Nat) (l : List Bool) (c : Bool) (hc : c = true)
    (h : condHeldFor d l) : condHeldFor (d + 1) (l ++ [c]) := by
  obtain ⟨hlen, hall⟩ := h
  constructor
  · simp only [List.length_append, List.length_cons, List.length_nil]
    omega
  · intro b hb
    have hr : (l ++ [c]).reverse = c :: l.reverse := by simp
    rw [hr, List.take_succ_cons] at hb
    rcases List.mem_cons.mp hb with rfl | hb
    · exact hc
    · exact hall b hb

/-- A shorter window held whenever a longer one did. -/
theorem condHeldFor_mono (d e : Nat) (l : List Bool) (hde : d ≤ e)
    (h : condHeldFor e l) : condHeldFor d l := by
  obtain ⟨hlen, hall⟩ := h
  refine ⟨le_trans hde hlen, fun b hb => hall b ?_⟩
  have ht : l.reverse.take d = (l.reverse.take e).take d := by
    rw [List.take_take, Nat.min_eq_left hde]
  rw [ht] at hb
  exact List.take_subset d _ hb

/-- When the condition held during at least the last tick, it held at the
last tick. -/
theorem condHeldFor_last (d : Nat) (l : List Bool) (hd : 1 ≤ d)
    (h : condHeldFor d l) : l.getLast? = some true := by
  obtain ⟨hlen, hall⟩ := h
  cases hr : l.reverse with
  | nil =>
    have h0 : l.length = 0 := by simpa using congrArg List.length hr
    omega
  | cons a t =>
    have ha : a = true := by
      apply hall
      rw [hr]
      cases d with
      | zero => omega
      | succ d2 => simp [List.take_succ_cons]
    rw [← List.head?_reverse, hr, ha]
    rfl

/-- The `hasLoadedOnce` cell after a tick is the settled value. -/
theorem tickTimer_hasLoadedOnce (hlo : Bool) (deps : Bool × Bool) (pr : Bool × Option Nat) :
    (tickTimer hlo deps pr).hasLoadedOnce = hlo := by
  rcases pr with ⟨ssl, _ | n⟩
  · rfl
  · simp only [tickTimer]
    split <;> rfl

/-- One tick preserves the smart loading invariant, the settled condition
of the tick appended to the condition history. -/
theorem smartTick_inv (opts : SmartLoadingOptions) (past : List Bool) (st : SmartState)
    (inp : SmartInputs) (hinv : SmartInv opts past st) :
    SmartInv opts (past ++ [tickCond opts st inp]) (smartTick opts st inp) := by
  obtain ⟨hinit, htimer, hssl, hdp⟩ := hinv
  by_cases hpd : st.prevDeps = some (condStep opts (st.hasLoadedOnce || inp.hasData) inp)
  · -- the loading effect is skipped: the dependency pair is unchanged
    have hlast : past.getLast? = some (tickCond opts st inp) := hdp _ hpd
    cases htm : st.timer with
    | none =>
      have hst : smartTick opts st inp =
          ⟨st.shouldShowLoading, st.hasLoadedOnce || inp.hasData, none,
           some (condStep opts (st.hasLoadedOnce || inp.hasData) inp)⟩ := by
        simp [smartTick, tickEffect, tickTimer, hpd, htm]
      rw [hst]
      refine ⟨by simp, by simp, ?_, ?_⟩
      · intro h3
        obtain ⟨hl, hch⟩ := hssl h3
        have hct : tickCond opts st inp = true := by
          rw [hlast] at hl
          exact (Option.some_injective _ hl)
        refine ⟨by rw [List.getLast?_concat, hct], ?_⟩
        exact condHeldFor_mono _ _ _ (Nat.le_succ _) (condHeldFor_append _ _ _ hct hch)
      · intro dp hdp2
        cases Option.some_injective _ hdp2
        rw [List.getLast?_concat]
        rfl
      | some n =>
      obtain ⟨hn1, hnd, hch⟩ := htimer n htm
      have hct : tickCond opts st inp = true := by
        have hl := condHeldFor_last _ _ (by omega) hch
        rw [hlast] at hl
        exact Option.some_injective _ hl
      by_cases hfire : n ≤ 1
      · have hn : n = 1 := by omega
        have hst : smartTick opts st inp =
            ⟨true, st.hasLoadedOnce || inp.hasData, none,
             some (condStep opts (st.hasLoadedOnce || inp.hasData) inp)⟩ := by
          simp [smartTick, tickEffect, tickTimer, hpd, htm, hfire]
        rw [hst]
        refine ⟨by simp, by simp, ?_, ?_⟩
        · intro _
          refine ⟨by rw [List.getLast?_concat, hct], ?_⟩
          have h2 := condHeldFor_append _ _ _ hct hch
          have he : opts.loadingDelay - n + 1 = opts.loadingDelay := by omega
          rwa [he] at h2
        · intro dp hdp2
          cases Option.some_injective _ hdp2
          rw [List.getLast?_concat]
          rfl
      · have hst : smartTick opts st inp =
            ⟨st.shouldShowLoading, st.hasLoadedOnce || inp.hasData, some (n - 1),
             some (condStep opts (st.hasLoadedOnce || inp.hasData) inp)⟩ := by
          simp [smartTick, tickEffect, tickTimer, hpd, htm, hfire]
        rw [hst]
        refine ⟨by simp, ?_, ?_, ?_⟩
        · intro m hm
          cases Option.some_injective _ hm
          refine ⟨by omega, by omega, ?_⟩
          have h2 := condHeldFor_append _ _ _ hct hch
          have he : opts.loadingDelay - n + 1 = opts.loadingDelay - (n - 1) := by omega
          rwa [he] at h2
        · intro h3
          obtain ⟨hl, hch2⟩ := hssl h3
          refine ⟨by rw [List.getLast?_concat, hct], ?_⟩
          exact condHeldFor_mono _ _ _ (Nat.le_succ _) (condHeldFor_append _ _ _ hct hch2)
        · intro dp hdp2
          cases Option.some_injective _ hdp2
          rw [List.getLast?_concat]
          rfl
  · -- the dependency pair changed: the effect runs
    by_cases hc : tickCond opts st inp = true
    · have hdc : depsCond opts (condStep opts (st.hasLoadedOnce || inp.hasData) inp) = true := hc
      by_cases hfire : opts.loadingDelay ≤ 1
      · have hst : smartTick opts st inp =
            ⟨true, st.hasLoadedOnce || inp.hasData, none,
             some (condStep opts (st.hasLoadedOnce || inp.hasData) inp)⟩ := by
          simp [smartTick, tickEffect, tickTimer, hpd, hdc, hfire]
        rw [hst]
        refine ⟨by simp, by simp, ?_, ?_⟩
        · intro _
          refine ⟨by rw [List.getLast?_concat, hc], ?_⟩
          rcases Nat.le_one_iff_eq_zero_or_eq_one.mp hfire with h0 | h1
          · rw [h0]; exact condHeldFor_zero _
          · rw [h1]
            simpa using condHeldFor_append 0 past _ hc (condHeldFor_zero past)
        · intro dp hdp2
          cases Option.some_injective _ hdp2
          rw [List.getLast?_concat]
          rfl
      · have hst : smartTick opts st inp =
            ⟨st.shouldShowLoading, st.hasLoadedOnce || inp.hasData,
             some (opts.loadingDelay - 1),
             some (condStep opts (st.hasLoadedOnce || inp.hasData) inp)⟩ := by
          simp [smartTick, tickEffect, tickTimer, hpd, hdc, hfire]
        rw [hst]
        refine ⟨by simp, ?_, ?_, ?_⟩
        · intro m hm
          cases Option.some_injective _ hm
          refine ⟨by omega, by omega, ?_⟩
          have he : opts.loadingDelay - (opts.loadingDelay - 1) = 1 := by omega
          rw [he]
          simpa using condHeldFor_append 0 past _ hc (condHeldFor_zero past)
        · intro h3
          obtain ⟨hl, hch2⟩ := hssl h3
          refine ⟨by rw [List.getLast?_concat, hc], ?_⟩
          exact condHeldFor_mono _ _ _ (Nat.le_succ _) (condHeldFor_append _ _ _ hc hch2)
        · intro dp hdp2
          cases Option.some_injective _ hdp2
          rw [List.getLast?_concat]
          rfl
    · have hcf : tickCond opts st inp = false := by
        cases hcc : tickCond opts st inp
        · rfl
        · exact absurd hcc hc
      have hst : smartTick opts st inp =
          ⟨false, st.hasLoadedOnce || inp.hasData, none,
           some (condStep opts (st.hasLoadedOnce || inp.hasData) inp)⟩ := by
        have : depsCond opts (condStep opts (st.hasLoadedOnce || inp.hasData) inp) = false := hcf
        simp [smartTick, tickEffect, tickTimer, hpd, this]
      rw [hst]
      refine ⟨by simp, by simp, by simp, ?_⟩
      · intro dp hdp2
        cases Option.some_injective _ hdp2
        rw [List.getLast?_concat]
        rfl

/-- The invariant carries over a whole input trace. -/
theorem runSmart_inv (opts : SmartLoadingOptions) (tr : List SmartInputs) :
    ∀ (st : SmartState) (past : List Bool), SmartInv opts past st →
    SmartInv opts (past ++ condTrace opts st.hasLoadedOnce tr) (runSmart opts st tr) := by
  induction tr with
  | nil => intro st past h; simpa [runSmart, condTrace] using h
  | cons inp rest ih =>
    intro st past h
    have h1 := smartTick_inv opts past st inp h
    have hh : (smartTick opts st inp).hasLoadedOnce = (st.hasLoadedOnce || inp.hasData) :=
      tickTimer_hasLoadedOnce _ _ _
    have h2 := ih (smartTick opts st inp) (past ++ [tickCond opts st inp]) h1
    rw [hh] at h2
    have hr : runSmart opts st (inp :: rest) = runSmart opts (smartTick opts st inp) rest := rfl
    have hct : condTrace opts st.hasLoadedOnce (inp :: rest)
        = tickCond opts st inp :: condTrace opts (st.hasLoadedOnce || inp.hasData) rest := rfl
    rw [hr, hct, List.append_cons]
    exact h2

/-- The initial state satisfies the invariant over the empty history. -/
theorem initSmartState_inv (opts : SmartLoadingOptions) : SmartInv opts [] initSmartState := by
  refine ⟨fun _ => ⟨rfl, rfl, rfl⟩, ?_, ?_, ?_⟩
  · intro n h; cases h
  · intro h; cases h
  · intro dp h; cases h

/-- The spinner can only be on when the condition has held continuously
for the last `loadingDelay` ticks (in particular the trace is at least
that long). -/
theorem smart_delay_necessity (opts : SmartLoadingOptions) (tr : List SmartInputs)
    (h : (runSmart opts initSmartState tr).shouldShowLoading = true) :
    condHeldFor opts.loadingDelay (condTrace opts false tr) := by
  have hinv := runSmart_inv opts tr initSmartState [] (initSmartState_inv opts)
  simpa using (hinv.2.2.1 h).2

/-- A tick whose settled condition is false turns the spinner off at that
very tick. -/
theorem smart_immediate_off (opts : SmartLoadingOptions) (tr : List SmartInputs)
    (inp : SmartInputs)
    (hc : tickCond opts (runSmart opts initSmartState tr) inp = false) :
    (runSmart opts initSmartState (tr ++ [inp])).shouldShowLoading = false := by
  have hinv := runSmart_inv opts tr initSmartState [] (initSmartState_inv opts)
  simp only [List.nil_append] at hinv
  obtain ⟨-, htimer, hssl, hdp⟩ := hinv
  have hrun : runSmart opts initSmartState (tr ++ [inp])
      = smartTick opts (runSmart opts initSmartState tr) inp := by
    simp [runSmart, List.foldl_append]
  rw [hrun]
  set st := runSmart opts initSmartState tr with hst
  by_cases hpd : st.prevDeps = some (condStep opts (st.hasLoadedOnce || inp.hasData) inp)
  · -- dependency pair unchanged: the last settled condition was already false
    have hlast : (condTrace opts initSmartState.hasLoadedOnce tr).getLast? = some false := by
      rw [hdp _ hpd]
      exact congrArg some hc
    have hsf : st.shouldShowLoading = false := by
      cases hb : st.shouldShowLoading
      · rfl
      · obtain ⟨hl, -⟩ := hssl hb
        rw [hl] at hlast
        cases hlast
    have htf : st.timer = none := by
      cases htm : st.timer with
      | none => rfl
      | some n =>
        obtain ⟨hn1, hnd, hch⟩ := htimer n htm
        have hl := condHeldFor_last _ _ (by omega) hch
        rw [hl] at hlast
        cases hlast
    simp [smartTick, tickEffect, tickTimer, hpd, htf, hsf]
  · -- effect runs with a false condition: hide immediately, clear timer
    have hdc : depsCond opts (condStep opts (st.hasLoadedOnce || inp.hasData) inp) = false := hc
    simp [smartTick, tickEffect, tickTimer, hpd, hdc]

/-- C8: the smart loading spinner (i) can only turn on after the
condition `isInitialLoad OR (showBackgroundRefetch AND
isBackgroundRefetch)` has remained continuously true for `loadingDelay`
milliseconds, (ii) turns off with no delay at any tick where that
condition is false, and (iii) in particular, with background refetch
indication off, if `isLoading` flips to false before `loadingDelay` has
elapsed and stays false, the spinner stays off at every point of the
run. -/
theorem C8_smart_loading :
    (∀ (opts : SmartLoadingOptions) (tr : List SmartInputs),
      (runSmart opts initSmartState tr).shouldShowLoading = true →
      condHeldFor opts.loadingDelay (condTrace opts false tr)) ∧
    (∀ (opts : SmartLoadingOptions) (tr : List SmartInputs) (inp : SmartInputs),
      tickCond opts (runSmart opts initSmartState tr) inp = false →
      (runSmart opts initSmartState (tr ++ [inp])).shouldShowLoading = false) ∧
    (∀ (opts : SmartLoadingOptions) (tr1 : List SmartInputs) (inp : SmartInputs)
       (tr2 p : List SmartInputs),
      opts.showBackgroundRefetch = false →
      tr1.length < opts.loadingDelay →
      inp.isLoading = false →
      (∀ j ∈ tr2, j.isLoading = false) →
      p <+: (tr1 ++ inp :: tr2) →
      (runSmart opts initSmartState p).shouldShowLoading = false) := by
  refine ⟨smart_delay_necessity, smart_immediate_off, ?_⟩
  intro opts tr1 inp tr2 p hsbr hlen hinp htr2 hp
  rcases Nat.lt_or_ge tr1.length p.length with hlt | hge
  · -- p reaches past the flip: its last tick has isLoading = false
    have htr1p : tr1 <+: p :=
      List.prefix_of_prefix_length_le (List.prefix_append _ _) hp (Nat.le_of_lt hlt)
    obtain ⟨r, rfl⟩ := htr1p
    have hrne : r ≠ [] := by
      intro h0
      rw [h0] at hlt
      simp at hlt
    have hrpre : r <+: inp :: tr2 := (List.prefix_append_right_inj tr1).mp hp
    have hmem : ∀ j ∈ r, j.isLoading = false := by
      intro j hj
      rcases List.mem_cons.mp (hrpre.subset hj) with rfl | hj2
      · exact hinp
      · exact htr2 j hj2
    have hlastmem : r.getLast hrne ∈ r := List.getLast_mem hrne
    have hlastfalse : (r.getLast hrne).isLoading = false := hmem _ hlastmem
    have hdecomp : tr1 ++ r = (tr1 ++ r.dropLast) ++ [r.getLast hrne] := by
      rw [List.append_assoc, List.dropLast_append_getLast hrne]
    rw [hdecomp]
    apply smart_immediate_off
    simp [tickCond, depsCond, condStep, hlastfalse, hsbr]
  · -- p ends before the delay could ever elapse
    cases hb : (runSmart opts initSmartState p).shouldShowLoading
    · rfl
    · exfalso
      obtain ⟨hl, -⟩ := smart_delay_necessity opts p hb
      rw [condTrace_length] at hl
      omega

end NRT
